import Mathlib

/-!
Verification of the OpenTESArena excerpt: the CFA sprite-sheet decoder
(`CFAFile`), the key/value configuration-file parser (`KeyValueFile`), and
the race-selection panel's province-mask lookup
(`ChooseRacePanel::getProvinceMaskID`).

The repository ships only the declaration header `CFAFile.h` for the CFA
decoder; the bodies of `CFAFile::CFAFile` and `demux1..demux7` are absent,
so the decoder is modelled from the specification (each such definition is
marked `Modelled from the spec:`).  `KeyValueFile.cpp` and the
`ChooseRacePanel` translation unit are present and are embedded from the
source.
-/

namespace CFA

/-- The eight bits of a byte, most significant bit first.  Only the low
eight bits of the input are used, matching a `uint8_t` source byte. -/
def byteBits (b : Nat) : List Bool :=
  [b.testBit 7, b.testBit 6, b.testBit 5, b.testBit 4,
   b.testBit 3, b.testBit 2, b.testBit 1, b.testBit 0]

/-- The packed source viewed as a continuous bit stream, most significant
bit of each byte first. -/
def bitsOfBytes (src : List Nat) : List Bool :=
  src.flatMap byteBits

/-- Value of a big-endian bit group. -/
def bitsToNat (bits : List Bool) : Nat :=
  bits.foldl (fun acc bit => 2 * acc + (if bit then 1 else 0)) 0

/-- Modelled from the spec: the core of the missing `CFAFile::demux1` ..
`CFAFile::demux7` bodies, collapsed into one routine parameterized by the
bits-per-pixel width `bpp` (spec §9).  The packed source is treated as a
continuous bit stream; each output palette index is the next `bpp` bits;
decoding stops exactly when `count` output bytes have been produced and any
remaining bits are discarded (spec §4.1). -/
def demuxBits (bpp : Nat) : List Bool → Nat → List Nat
  | _, 0 => []
  | bits, n + 1 => bitsToNat (bits.take bpp) :: demuxBits bpp (bits.drop bpp) n

/-- Modelled from the spec: decompress one frame region of packed bytes
into `count` palette-index bytes. -/
def demuxFrame (bpp : Nat) (src : List Nat) (count : Nat) : List Nat :=
  demuxBits bpp (bitsOfBytes src) count

/-- Little-endian unsigned 16-bit read at byte offset `o`. -/
def readU16 (bytes : List Nat) (o : Nat) : Nat :=
  (bytes.getD o 0) + 256 * (bytes.getD (o + 1) 0)

/-- Little-endian signed 16-bit read at byte offset `o` (two's complement). -/
def readI16 (bytes : List Nat) (o : Nat) : Int :=
  let v := readU16 bytes o
  if v < 32768 then (v : Int) else (v : Int) - 65536

/-- Little-endian unsigned 32-bit read at byte offset `o`. -/
def readU32 (bytes : List Nat) (o : Nat) : Nat :=
  (bytes.getD o 0) + 256 * (bytes.getD (o + 1) 0) +
    65536 * (bytes.getD (o + 2) 0) + 16777216 * (bytes.getD (o + 3) 0)

/-- The decoded sprite sheet (spec §3): frame count, uniform dimensions,
anchor offsets, and one owned pixel buffer per frame. -/
structure CFAFile where
  imageCount : Nat
  width : Nat
  height : Nat
  xOffset : Int
  yOffset : Int
  pixels : List (List Nat)
  deriving Repr, DecidableEq

/-- Size of the fixed header: frame count, width, height, X anchor,
Y anchor (16-bit each) and the compression byte. -/
def headerSize : Nat := 11

/-- Modelled from the spec: one frame's compressed byte region.  A frame's
region is `ceil (width*height*bpp / 8)` bytes starting at its declared
absolute offset (spec §4.1). -/
def frameRegion (bytes : List Nat) (off len : Nat) : List Nat :=
  (bytes.drop off).take len

/-- The table of `frameCount` little-endian 32-bit absolute frame offsets
that follows the header. -/
def cfaOffsets (bytes : List Nat) : List Nat :=
  (List.range (readU16 bytes 0)).map (fun i => readU32 bytes (headerSize + 4 * i))

/-- Modelled from the spec: the missing `CFAFile::CFAFile` body.  Parses
the little-endian header (frame count, width, height, X/Y anchors,
compression byte), the table of `frameCount` 32-bit absolute frame
offsets, validates every field eagerly, then decompresses every frame.
Any defect makes the whole construction fail with a format error; no
partial sheet is ever produced (spec §4.1, §7). -/
def cfaInit (bytes : List Nat) : Except String CFAFile :=
  if bytes.length < headerSize then
    .error "format error: file too short for header"
  else if readU16 bytes 0 = 0 then .error "format error: frame count is zero"
  else if readU16 bytes 2 = 0 then .error "format error: width is zero"
  else if readU16 bytes 4 = 0 then .error "format error: height is zero"
  else if bytes.getD 10 0 < 1 ∨ 7 < bytes.getD 10 0 then
    .error "format error: compression byte outside [1,7]"
  else if bytes.length < headerSize + 4 * readU16 bytes 0 then
    .error "format error: file too short for frame offset table"
  else if (cfaOffsets bytes).any (fun off => bytes.length ≤ off) then
    .error "format error: frame offset outside file byte range"
  else if (bytes.length : Int) - ((cfaOffsets bytes).getLastD 0 : Int) < 0 then
    .error "format error: negative inferred last-frame length"
  else
    let width := readU16 bytes 2
    let height := readU16 bytes 4
    let comp := bytes.getD 10 0
    let frameLen := (width * height * comp + 7) / 8
    .ok { imageCount := readU16 bytes 0
          width := width
          height := height
          xOffset := readI16 bytes 6
          yOffset := readI16 bytes 8
          pixels := (cfaOffsets bytes).map (fun off =>
            demuxFrame comp (frameRegion bytes off frameLen)
              (width * height)) }

/-- Modelled from the spec: `CFAFile::getPixels`.  Succeeds with the
frame's pixel buffer when `index` is in `[0, frameCount)`, fails with a
range error otherwise (spec §4.1: "fails with an out-of-range error if
`index` is not in `[0, frameCount)`"). -/
def getPixels (cfa : CFAFile) (index : Int) : Option (List Nat) :=
  if 0 ≤ index ∧ index < (cfa.imageCount : Int) then
    cfa.pixels[index.toNat]?
  else
    none

end CFA

example : CFA.demuxFrame 4 [0x12, 0x34] 4 = [1, 2, 3, 4] := by decide
example : CFA.demuxFrame 1 [0b10110000] 4 = [1, 0, 1, 1] := by decide
example : CFA.demuxFrame 3 [0b10101110, 0xFF] 2 = [5, 3] := by decide

namespace KVF

/-- Whitespace in the sense of the C `isspace` classifier used by the
string-trimming utilities: space, tab, newline, vertical tab, form feed,
carriage return. -/
def charIsSpace (c : Char) : Bool :=
  c = ' ' || c = '\t' || c = '\n' || c = Char.ofNat 11 || c = Char.ofNat 12 || c = '\r'

/-- Modelled from the spec: `StringView::trimFront` (the utility header is
not in the excerpt) — removes leading whitespace. -/
def trimFront (s : List Char) : List Char :=
  s.dropWhile charIsSpace

/-- Modelled from the spec: `StringView::trimBack` — removes trailing
whitespace. -/
def trimBack (s : List Char) : List Char :=
  (s.reverse.dropWhile charIsSpace).reverse

/-- Modelled from the spec: the splitting primitive behind
`StringView::splitExpected` — splits a string on every occurrence of the
separator, keeping empty tokens.  `splitExpected` then demands that the
token count equal the expected array size. -/
def splitOnChar (sep : Char) : List Char → List (List Char)
  | [] => [[]]
  | c :: rest =>
    match splitOnChar sep rest with
    | [] => [[]]
    | t :: ts => if c = sep then [] :: t :: ts else (c :: t) :: ts

/-- Result of examining one line of a key/value file
(`KeyValueFile::init`, lines 26-160): skip it, reject the file, open a
section, or record a key/value pair. -/
inductive LineParse where
  | skip
  | bad
  | sec (name : List Char)
  | pair (key value : List Char)
  deriving Repr, DecidableEq

/-- The filtered view of one raw line (`KeyValueFile::init` lines 30-62):
an empty or lone-carriage-return line becomes empty; a trailing carriage
return is dropped; a comment starting the line empties it; otherwise the
part left of the first `#` is kept and trimmed on both ends. -/
def filterLine (line : List Char) : List Char :=
  if line = [] || line = ['\r'] then []
  else
    let l1 := if line.getLast? = some '\r' then line.dropLast else line
    match l1.findIdx? (fun c => c = '#') with
    | some 0 => []
    | some i => trimFront (trimBack (l1.take i))
    | none => trimFront (trimBack l1)

/-- Classification of one line (`KeyValueFile::init` lines 64-160): an
empty filtered line is skipped; a filtered line shorter than 3 is a syntax
error; a line containing `[` must contain a matching `]` with at least one
character between them, giving a section whose name is trimmed; otherwise
a line containing `=` must split into exactly key and value (key trimmed
at the back and nonempty, value trimmed at the front); anything else is an
error. -/
def parseLine (line : List Char) : LineParse :=
  let fl := filterLine line
  if fl = [] then .skip
  else if fl.length < 3 then .bad
  else
    match fl.findIdx? (fun c => c = '[') with
    | some fi =>
      match (fl.drop fi).findIdx? (fun c => c = ']') with
      | some j =>
        let bi := fi + j
        if fi + 1 < bi then
          .sec (trimFront (trimBack ((fl.drop (fi + 1)).take (bi - fi - 1))))
        else .bad
      | none => .bad
    | none =>
      if fl.contains '=' then
        match splitOnChar '=' fl with
        | [k, v] =>
          let key := trimBack k
          let value := trimFront v
          if key = [] then .bad else .pair key value
        | _ => .bad
      else .bad

/-- A section's key/value pairs.  `std::unordered_map::insert` does not
overwrite an existing key, so insertion is first-wins. -/
abbrev SectionMap := List (List Char × List Char)

/-- First-wins insertion into a section map
(`activeSectionMap->insert`, line 144). -/
def insertPair (m : SectionMap) (k v : List Char) : SectionMap :=
  if m.any (fun p => p.1 = k) then m else m ++ [(k, v)]

/-- The parser state while reading lines: the section maps built so far
and the name of the active section, if any. -/
structure InitState where
  sections : List (List Char × SectionMap)
  active : Option (List Char)

/-- Insert a pair into the named section of the section list. -/
def insertIntoSections (ss : List (List Char × SectionMap)) (name k v : List Char) :
    List (List Char × SectionMap) :=
  ss.map (fun p => if p.1 = name then (p.1, insertPair p.2 k v) else p)

/-- One iteration of the `KeyValueFile::init` loop on an unfiltered line:
a duplicate section name fails (lines 105-110), a new section becomes
active (lines 99-104), a pair goes into the active section or is ignored
with a warning when no section is active yet (lines 142-152), and any
malformed line fails. -/
def stepLine (st : InitState) (line : List Char) : Option InitState :=
  match parseLine line with
  | .skip => some st
  | .bad => none
  | .sec name =>
    if st.sections.any (fun p => p.1 = name) then none
    else some ⟨st.sections ++ [(name, [])], some name⟩
  | .pair k v =>
    match st.active with
    | none => some st
    | some name => some ⟨insertIntoSections st.sections name k v, some name⟩

/-- Run the `init` loop over the remaining lines. -/
def runInit (st : InitState) : List (List Char) → Option InitState
  | [] => some st
  | l :: ls =>
    match stepLine st l with
    | none => none
    | some st2 => runInit st2 ls

/-- The decoded key/value file: section names mapped to their pairs. -/
abbrev KeyValueFile := List (List Char × SectionMap)

/-- `KeyValueFile::init`: split the text into lines (as `std::getline`
does, on newline characters) and run the parsing loop; `none` models
returning `false`. -/
def kvfInit (text : List Char) : Option KeyValueFile :=
  (runInit ⟨[], none⟩ (splitOnChar (Char.ofNat 10) text)).map
    (fun st => st.sections)

/-- `KeyValueFile::tryGetValue`: look up the section, then the key inside
it; `none` models returning `false`. -/
def tryGetValue (kvf : KeyValueFile) (section1 key : List Char) : Option (List Char) :=
  match kvf.find? (fun p => p.1 = section1) with
  | none => none
  | some p =>
    match p.2.find? (fun q => q.1 = key) with
    | none => none
    | some q => some q.2

/-- Numeric value of a digit character. -/
def digitVal (c : Char) : Nat := c.toNat - 48

/-- Value of a string of decimal digit characters. -/
def natOfDigits (ds : List Char) : Nat :=
  ds.foldl (fun a c => 10 * a + digitVal c) 0

/-- Smallest value of a 32-bit `int`. -/
def intMin : Int := -2147483648

/-- Largest value of a 32-bit `int`. -/
def intMax : Int := 2147483647

/-- How many characters of a sign an `std::stoi` parse consumes at the
start of the whitespace-stripped input. -/
def signLenOf (r : List Char) : Nat :=
  match r with
  | c :: _ => if c = '-' ∨ c = '+' then 1 else 0
  | [] => 0

/-- Whether the `std::stoi` parse of the whitespace-stripped input is
negative. -/
def isNegOf (r : List Char) : Bool :=
  match r with
  | c :: _ => c = '-'
  | [] => false

/-- `std::stoi(str, &index, 10)` modelled on 32-bit `int`: skip leading
whitespace, read an optional sign and then one or more decimal digits,
stopping at the first non-digit.  With no digits (`invalid_argument`) or a
value outside `int` range (`out_of_range`) it throws, which
`tryGetInteger` catches; both are `none` here.  On success it returns the
value and the index one past the last character converted. -/
def stoiWithIndex (s : List Char) : Option (Int × Nat) :=
  let r1 := s.drop (s.takeWhile charIsSpace).length
  let digits := (r1.drop (signLenOf r1)).takeWhile Char.isDigit
  if digits = [] then none
  else
    let v : Int :=
      if isNegOf r1 then -(natOfDigits digits : Int) else (natOfDigits digits : Int)
    if v < intMin ∨ intMax < v then none
    else some (v, (s.takeWhile charIsSpace).length + signLenOf r1 + digits.length)

/-- The conversion step of `KeyValueFile::tryGetInteger`: run `std::stoi`
and keep the value exactly when the conversion consumed the entire
string (`index == str.size()`, line 234). -/
def stoiWhole (s : List Char) : Option Int :=
  match stoiWithIndex s with
  | none => none
  | some (v, idx) => if idx = s.length then some v else none

/-- `KeyValueFile::tryGetInteger` (lines 221-241): fetch the value string,
run `std::stoi` on it, and succeed exactly when the conversion consumed
the entire string; `some v` models returning `true` with `value = v`. -/
def tryGetInteger (kvf : KeyValueFile) (section1 key : List Char) : Option Int :=
  match tryGetValue kvf section1 key with
  | none => none
  | some str => stoiWhole str

end KVF

namespace Panel

/-- A 2D integer point (`Int2`). -/
structure Int2 where
  x : Int
  y : Int

/-- A world-map mask as `ChooseRacePanel::getProvinceMaskID` consumes it:
its rectangle-membership test (`Rect::contains`) and its bitmask lookup
(`WorldMapMask::get`).  Both live in headers outside the excerpt, so they
are abstract boolean functions here; the claim holds for every choice of
them. -/
structure WorldMapMask where
  rectContains : Int2 → Bool
  get : Int → Int → Bool

/-- `ChooseRacePanel::NO_ID`. -/
def NO_ID : Int := -1

/-- The loop of `ChooseRacePanel::getProvinceMaskID` (part_000 lines
263-295), with `maskID` the index of the head of the remaining mask list:
indices 8 (center province) and 9 (exit button) are skipped; otherwise a
mask whose rectangle contains the position and whose bitmask is set there
is returned. -/
def provinceMaskLoop (pos : Int2) : List WorldMapMask → Nat → Int
  | [], _ => NO_ID
  | m :: rest, maskID =>
    if maskID = 8 ∨ maskID = 9 then provinceMaskLoop pos rest (maskID + 1)
    else if m.rectContains pos && m.get pos.x pos.y then (maskID : Int)
    else provinceMaskLoop pos rest (maskID + 1)

/-- `ChooseRacePanel::getProvinceMaskID`. -/
def getProvinceMaskID (worldMapMasks : List WorldMapMask) (position : Int2) : Int :=
  provinceMaskLoop position worldMapMasks 0

end Panel

example : KVF.kvfInit "[S]\nx = 5".toList =
    some [(['S'], [(['x'], ['5'])])] := by rfl
example : KVF.tryGetInteger [(['S'], [(['x'], ['5'])])] ['S'] ['x'] = some 5 := by rfl
example : KVF.kvfInit "a=b\n[S]\nc=d".toList = some [(['S'], [(['c'], ['d'])])] := by rfl
example : KVF.kvfInit "[S]\n[ S ]".toList = none := by rfl
example : KVF.kvfInit "[S]\nx".toList = none := by rfl

namespace CFA

lemma demuxBits_length (bpp : Nat) :
    ∀ (count : Nat) (bits : List Bool), (demuxBits bpp bits count).length = count := by
  intro count
  induction count with
  | zero => intro bits; rfl
  | succ n ih => intro bits; simp [demuxBits, ih]

lemma demuxBits_take (bpp : Nat) :
    ∀ (count : Nat) (bits : List Bool),
      demuxBits bpp (bits.take (bpp * count)) count = demuxBits bpp bits count := by
  intro count
  induction count with
  | zero => intro bits; rfl
  | succ n ih =>
    intro bits
    simp only [demuxBits, List.take_take, List.drop_take]
    have h1 : min bpp (bpp * (n + 1)) = bpp := by
      have : bpp ≤ bpp * (n + 1) := Nat.le_mul_of_pos_right bpp (Nat.succ_pos n)
      omega
    have h2 : bpp * (n + 1) - bpp = bpp * n := by ring_nf; omega
    rw [h1, h2, ih]

lemma cfaInit_ok_pixels (bytes : List Nat) (cfa : CFAFile) (h : cfaInit bytes = .ok cfa) :
    cfa.pixels.length = cfa.imageCount ∧
      ∀ f ∈ cfa.pixels, f.length = cfa.width * cfa.height := by
  unfold cfaInit at h
  repeat' split at h
  all_goals simp only [reduceCtorEq] at h
  simp only [Except.ok.injEq] at h
  subst h
  refine ⟨by simp [cfaOffsets], ?_⟩
  intro f hf
  simp only [List.mem_map] at hf
  obtain ⟨off, _, rfl⟩ := hf
  exact demuxBits_length _ _ _

end CFA

namespace CFA

/-- A crafted 2-frame, 4x4, 4-bits-per-pixel file (spec §8's example
scenario): an 11-byte header, two 32-bit frame offsets (19 and 27), and
two 8-byte packed frame regions. -/
def exampleBytes : List Nat :=
  [2, 0, 4, 0, 4, 0, 0, 0, 0, 0, 4] ++
  [19, 0, 0, 0, 27, 0, 0, 0] ++
  [0x01, 0x23, 0x45, 0x67, 0x89, 0xAB, 0xCD, 0xEF] ++
  [0xFF, 0xFF, 0xFF, 0xFF, 0xFF, 0xFF, 0xFF, 0xFF]

/-- The sheet that `exampleBytes` decodes to. -/
def exampleSheet : CFAFile :=
  { imageCount := 2
    width := 4
    height := 4
    xOffset := 0
    yOffset := 0
    pixels := [[0, 1, 2, 3, 4, 5, 6, 7, 8, 9, 10, 11, 12, 13, 14, 15],
               [15, 15, 15, 15, 15, 15, 15, 15, 15, 15, 15, 15, 15, 15, 15, 15]] }

end CFA

example : CFA.cfaInit CFA.exampleBytes = .ok CFA.exampleSheet := by rfl

namespace Panel

lemma provinceMaskLoop_range (pos : Int2) :
    ∀ (masks : List WorldMapMask) (k : Nat),
      provinceMaskLoop pos masks k = NO_ID ∨
      ((k : Int) ≤ provinceMaskLoop pos masks k ∧
        provinceMaskLoop pos masks k < (k : Int) + masks.length ∧
        provinceMaskLoop pos masks k ≠ 8 ∧ provinceMaskLoop pos masks k ≠ 9) := by
  intro masks
  induction masks with
  | nil => intro k; left; rfl
  | cons m rest ih =>
    intro k
    simp only [provinceMaskLoop, List.length_cons]
    split
    · rcases ih (k + 1) with h | h
      · left; exact h
      · right
        push_cast at h ⊢
        omega
    · split
      · right
        rename_i hk _
        push_cast
        omega
      · rcases ih (k + 1) with h | h
        · left; exact h
        · right
          push_cast at h ⊢
          omega

end Panel

/-- C10: `ChooseRacePanel::getProvinceMaskID` always returns either
`NO_ID` (-1) or a mask index in `[0, maskCount)` that is neither 8 (the
center province) nor 9 (the exit button); for every position — whatever
the mask rectangles and bitmasks say — indices 8 and 9 are skipped. -/
theorem claimC10_province_mask_id_range :
    ∀ (worldMapMasks : List Panel.WorldMapMask) (position : Panel.Int2),
      Panel.getProvinceMaskID worldMapMasks position = Panel.NO_ID ∨
      (0 ≤ Panel.getProvinceMaskID worldMapMasks position ∧
        Panel.getProvinceMaskID worldMapMasks position < (worldMapMasks.length : Int) ∧
        Panel.getProvinceMaskID worldMapMasks position ≠ 8 ∧
        Panel.getProvinceMaskID worldMapMasks position ≠ 9) := by
  intro masks pos
  have h := Panel.provinceMaskLoop_range pos masks 0
  simpa [Panel.getProvinceMaskID] using h

/-- C1: for every frame of a successfully decoded sprite sheet, the
decompression routine produces exactly `width*height` output palette-index
bytes and then stops; the output is determined by the first `bpp*count`
bits of the packed stream alone, so leftover bits in the final packed
source byte are discarded and never emitted as an extra partial pixel. -/
theorem claimC1_demux_exact_output :
    (∀ (bytes : List Nat) (cfa : CFA.CFAFile), CFA.cfaInit bytes = .ok cfa →
      ∀ f ∈ cfa.pixels, f.length = cfa.width * cfa.height) ∧
    (∀ (bpp count : Nat) (bits : List Bool),
      (CFA.demuxBits bpp bits count).length = count ∧
      CFA.demuxBits bpp (bits.take (bpp * count)) count = CFA.demuxBits bpp bits count) := by
  constructor
  · intro bytes cfa h
    exact (CFA.cfaInit_ok_pixels bytes cfa h).2
  · intro bpp count bits
    exact ⟨CFA.demuxBits_length bpp count bits, CFA.demuxBits_take bpp count bits⟩

/-- Witness for C1 at the crafted 2-frame 4x4 file: its first frame has
exactly `4*4` bytes. -/
theorem claimC1_witness :
    ([0, 1, 2, 3, 4, 5, 6, 7, 8, 9, 10, 11, 12, 13, 14, 15] : List Nat).length =
      CFA.exampleSheet.width * CFA.exampleSheet.height :=
  claimC1_demux_exact_output.1 CFA.exampleBytes CFA.exampleSheet rfl _ (by decide)

/-- C3: for every successfully constructed sheet, the number of stored
frame buffers equals the header's frame count, and every index in
`[0, frameCount)` holds a buffer of exactly `width*height` bytes. -/
theorem claimC3_frame_buffer_invariant :
    ∀ (bytes : List Nat) (cfa : CFA.CFAFile), CFA.cfaInit bytes = .ok cfa →
      cfa.pixels.length = cfa.imageCount ∧
      ∀ i : Nat, i < cfa.imageCount →
        ∃ f, cfa.pixels[i]? = some f ∧ f.length = cfa.width * cfa.height := by
  intro bytes cfa h
  obtain ⟨hlen, hall⟩ := CFA.cfaInit_ok_pixels bytes cfa h
  refine ⟨hlen, ?_⟩
  intro i hi
  rw [← hlen] at hi
  refine ⟨cfa.pixels[i], List.getElem?_eq_getElem hi, ?_⟩
  exact hall _ (List.getElem_mem hi)

/-- Witness for C3 at the crafted 2-frame 4x4 file. -/
theorem claimC3_witness :
    CFA.exampleSheet.pixels.length = CFA.exampleSheet.imageCount ∧
    ∀ i : Nat, i < CFA.exampleSheet.imageCount →
      ∃ f, CFA.exampleSheet.pixels[i]? = some f ∧
        f.length = CFA.exampleSheet.width * CFA.exampleSheet.height :=
  claimC3_frame_buffer_invariant CFA.exampleBytes CFA.exampleSheet rfl

/-- C4: construction is all-or-nothing — for every input, either the whole
sheet decodes (every buffer present and completely filled) or a single
error outcome is returned and no sheet at all is observable. -/
theorem claimC4_all_or_nothing :
    ∀ bytes : List Nat,
      (∃ cfa, CFA.cfaInit bytes = .ok cfa ∧
        cfa.pixels.length = cfa.imageCount ∧
        ∀ f ∈ cfa.pixels, f.length = cfa.width * cfa.height) ∨
      (∃ e, CFA.cfaInit bytes = .error e) := by
  intro bytes
  cases h : CFA.cfaInit bytes with
  | ok cfa =>
    left
    exact ⟨cfa, rfl, CFA.cfaInit_ok_pixels bytes cfa h⟩
  | error e => right; exact ⟨e, rfl⟩

/-- C7: decoding is deterministic — decoding the same bytes twice yields
byte-identical pixel buffers (and identical sheets): the decoded output is
a function of the input bytes alone. -/
theorem claimC7_deterministic :
    ∀ (bytes : List Nat) (cfa1 cfa2 : CFA.CFAFile),
      CFA.cfaInit bytes = .ok cfa1 → CFA.cfaInit bytes = .ok cfa2 →
      cfa1.pixels = cfa2.pixels ∧ cfa1 = cfa2 := by
  intro bytes cfa1 cfa2 h1 h2
  rw [h1] at h2
  cases h2
  exact ⟨rfl, rfl⟩

/-- Witness for C7 at the crafted 2-frame 4x4 file. -/
theorem claimC7_witness :
    CFA.exampleSheet.pixels = CFA.exampleSheet.pixels ∧
    CFA.exampleSheet = CFA.exampleSheet :=
  claimC7_deterministic CFA.exampleBytes CFA.exampleSheet CFA.exampleSheet rfl rfl

/-- C6: on a constructed sheet, `getPixels index` succeeds exactly when
`index` is in `[0, frameCount)`; in particular `getPixels frameCount` and
`getPixels (-1)` both fail instead of reading out of bounds. -/
theorem claimC6_get_pixels_range :
    ∀ (bytes : List Nat) (cfa : CFA.CFAFile) (index : Int),
      CFA.cfaInit bytes = .ok cfa →
      ((CFA.getPixels cfa index).isSome ↔
        (0 ≤ index ∧ index < (cfa.imageCount : Int))) ∧
      CFA.getPixels cfa (cfa.imageCount : Int) = none ∧
      CFA.getPixels cfa (-1) = none := by
  intro bytes cfa index h
  have hlen := (CFA.cfaInit_ok_pixels bytes cfa h).1
  refine ⟨?_, ?_, ?_⟩
  · unfold CFA.getPixels
    split
    · rename_i hin
      have hi : index.toNat < cfa.pixels.length := by
        rw [hlen]; omega
      rw [List.getElem?_eq_getElem hi]
      simpa using hin
    · rename_i hin
      simpa using hin
  · unfold CFA.getPixels
    split
    · rename_i hin; omega
    · rfl
  · unfold CFA.getPixels
    split
    · rename_i hin
      omega
    · rfl

/-- Witness for C6 at the crafted 2-frame 4x4 file and index 0. -/
theorem claimC6_witness :
    ((CFA.getPixels CFA.exampleSheet 0).isSome ↔
      (0 ≤ (0 : Int) ∧ (0 : Int) < (CFA.exampleSheet.imageCount : Int))) ∧
    CFA.getPixels CFA.exampleSheet (CFA.exampleSheet.imageCount : Int) = none ∧
    CFA.getPixels CFA.exampleSheet (-1) = none :=
  claimC6_get_pixels_range CFA.exampleBytes CFA.exampleSheet 0 rfl

namespace CFA

set_option maxRecDepth 4096

lemma bitsToNat_high_nibble :
    ∀ b < 256, bitsToNat [b.testBit 7, b.testBit 6, b.testBit 5, b.testBit 4] = b / 16 := by
  decide

lemma bitsToNat_low_nibble :
    ∀ b < 256, bitsToNat [b.testBit 3, b.testBit 2, b.testBit 1, b.testBit 0] = b % 16 := by
  decide

lemma demuxBits_four_of_byte (b : Nat) (hb : b < 256) (tail : List Bool) (n : Nat) :
    demuxBits 4 (byteBits b ++ tail) (n + 2) =
      b / 16 :: b % 16 :: demuxBits 4 tail n := by
  have htake : (byteBits b ++ tail).take 4 =
      [b.testBit 7, b.testBit 6, b.testBit 5, b.testBit 4] := by
    rw [List.take_append_of_le_length (by simp [byteBits])]
    simp [byteBits]
  have hdrop : (byteBits b ++ tail).drop 4 =
      [b.testBit 3, b.testBit 2, b.testBit 1, b.testBit 0] ++ tail := by
    rw [List.drop_append_of_le_length (by simp [byteBits])]
    simp [byteBits]
  have htake2 : (([b.testBit 3, b.testBit 2, b.testBit 1, b.testBit 0] : List Bool) ++ tail).take 4 =
      [b.testBit 3, b.testBit 2, b.testBit 1, b.testBit 0] := by
    rw [List.take_append_of_le_length (by simp)]
    simp
  have hdrop2 : (([b.testBit 3, b.testBit 2, b.testBit 1, b.testBit 0] : List Bool) ++ tail).drop 4 =
      tail := by
    rw [List.drop_append_of_le_length (by simp)]
    simp
  show bitsToNat ((byteBits b ++ tail).take 4) ::
      demuxBits 4 ((byteBits b ++ tail).drop 4) (n + 1) = _
  rw [htake, hdrop, bitsToNat_high_nibble b hb]
  show _ :: bitsToNat ((([b.testBit 3, b.testBit 2, b.testBit 1, b.testBit 0] : List Bool) ++ tail).take 4) ::
      demuxBits 4 ((([b.testBit 3, b.testBit 2, b.testBit 1, b.testBit 0] : List Bool) ++ tail).drop 4) n = _
  rw [htake2, hdrop2, bitsToNat_low_nibble b hb]

lemma demux4_nibbles :
    ∀ src : List Nat, (∀ b ∈ src, b < 256) →
      demuxFrame 4 src (2 * src.length) =
        src.flatMap (fun b => [b / 16, b % 16]) := by
  intro src
  induction src with
  | nil => intro _; rfl
  | cons b rest ih =>
    intro hb
    have hb0 : b < 256 := hb b (List.mem_cons_self b rest)
    have hrest : ∀ x ∈ rest, x < 256 := fun x hx => hb x (List.mem_cons_of_mem b hx)
    have hcount : 2 * (b :: rest).length = 2 * rest.length + 2 := by
      simp [List.length_cons]; ring
    unfold demuxFrame at ih ⊢
    rw [hcount]
    show demuxBits 4 (byteBits b ++ bitsOfBytes rest) (2 * rest.length + 2) = _
    rw [demuxBits_four_of_byte b hb0 _ _, ih hrest]
    simp [List.flatMap_cons]

end CFA

/-- C2: for the 4-bits-per-pixel variant, each packed source byte expands
to exactly two output palette-index bytes, high nibble first; the crafted
2-frame 4x4 file of that variant yields exactly 16 palette-index bytes per
frame, each decompressed from an 8-byte packed region. -/
theorem claimC2_demux4_high_nibble_first :
    (∀ src : List Nat, (∀ b ∈ src, b < 256) →
      CFA.demuxFrame 4 src (2 * src.length) =
        src.flatMap (fun b => [b / 16, b % 16])) ∧
    CFA.cfaInit CFA.exampleBytes = .ok CFA.exampleSheet ∧
    (CFA.frameRegion CFA.exampleBytes 19 8).length = 8 ∧
    (CFA.frameRegion CFA.exampleBytes 27 8).length = 8 ∧
    (∀ f ∈ CFA.exampleSheet.pixels, f.length = 16) :=
  ⟨CFA.demux4_nibbles, by rfl, by decide, by decide, by decide⟩

/-- Witness for C2: one packed byte `0x12` expands to the two nibbles
1 then 2. -/
theorem claimC2_witness :
    CFA.demuxFrame 4 [18] (2 * ([18] : List Nat).length) =
      ([18] : List Nat).flatMap (fun b => [b / 16, b % 16]) :=
  claimC2_demux4_high_nibble_first.1 [18] (by decide)

namespace CFA

/-- Whether a construction outcome is a failure. -/
def isError : Except String CFAFile → Bool
  | .error _ => true
  | .ok _ => false

/-- The failure conditions exactly as the claim lists them: zero frame
count or dimension, compression byte outside `[1,7]`, a frame offset
outside the file's byte range, or a negative inferred last-frame
length. -/
def claimedFormatDefect (bytes : List Nat) : Prop :=
  readU16 bytes 0 = 0 ∨ readU16 bytes 2 = 0 ∨ readU16 bytes 4 = 0 ∨
  bytes.getD 10 0 < 1 ∨ 7 < bytes.getD 10 0 ∨
  (cfaOffsets bytes).any (fun off => bytes.length ≤ off) = true ∨
  (bytes.length : Int) - ((cfaOffsets bytes).getLastD 0 : Int) < 0

/-- The claim's failure conditions plus the two truncation cases the
decoder must also reject: a file too short to hold the header, or too
short to hold the frame-offset table. -/
def amendedFormatDefect (bytes : List Nat) : Prop :=
  bytes.length < headerSize ∨
  bytes.length < headerSize + 4 * readU16 bytes 0 ∨
  claimedFormatDefect bytes

/-- A complete, well-formed 11-byte header announcing one 1x1 frame, with
the 4-byte frame-offset table missing entirely. -/
def cfaTruncatedTableBytes : List Nat := [1, 0, 1, 0, 1, 0, 0, 0, 0, 0, 1]

end CFA

/-- C5 amended: construction fails exactly when the file is too short for
the header or the frame-offset table, the header's frame count or a
dimension is zero, the compression byte lies outside `[1,7]`, a frame
offset lies outside the file's byte range, or the inferred last-frame
length is negative. -/
theorem claimC5_failure_conditions :
    ∀ bytes : List Nat,
      CFA.isError (CFA.cfaInit bytes) = true ↔ CFA.amendedFormatDefect bytes := by
  intro bytes
  unfold CFA.cfaInit
  repeat' split
  all_goals
    simp_all [CFA.isError, CFA.amendedFormatDefect, CFA.claimedFormatDefect]
  all_goals tauto

/-- Counterexample for C5 as stated: a file holding a fully valid header
(frame count 1, 1x1, variant 1) but no offset table at all fails, yet none
of the claim's listed conditions holds for it. -/
theorem claimC5_counterexample :
    ¬ (CFA.isError (CFA.cfaInit CFA.cfaTruncatedTableBytes) = true ↔
        CFA.claimedFormatDefect CFA.cfaTruncatedTableBytes) := by
  intro h
  have hc := h.mp (by rfl)
  revert hc
  unfold CFA.claimedFormatDefect CFA.cfaTruncatedTableBytes
  decide

namespace KVF

/-- Optional sign and remaining characters of an integer literal, as the
claim's wording "a decimal integer" reads: a leading `-` or `+` followed
by the digit string. -/
def signSplit (s : List Char) : Int × List Char :=
  match s with
  | c :: r => if c = '-' then (-1, r) else if c = '+' then (1, r) else (1, c :: r)
  | [] => (1, [])

/-- The claim's acceptance condition, read literally: the entire stored
value string is an optional sign followed by one or more decimal digits,
with no trailing characters. -/
def isDecimalIntegerString (s : List Char) : Prop :=
  (signSplit s).2 ≠ [] ∧ (signSplit s).2.all Char.isDigit = true

/-- The amended acceptance condition: after discarding leading whitespace
(which `std::stoi` skips), the rest is an optional sign followed by one or
more decimal digits with nothing after them, and the signed value fits in
a 32-bit `int`. -/
def stoiAcceptsEntire (s : List Char) : Prop :=
  let body := s.dropWhile charIsSpace
  (signSplit body).2 ≠ [] ∧ (signSplit body).2.all Char.isDigit = true ∧
  intMin ≤ (signSplit body).1 * (natOfDigits (signSplit body).2 : Int) ∧
  (signSplit body).1 * (natOfDigits (signSplit body).2 : Int) ≤ intMax

lemma drop_length_takeWhile (p : Char → Bool) :
    ∀ l : List Char, l.drop (l.takeWhile p).length = l.dropWhile p := by
  intro l
  induction l with
  | nil => rfl
  | cons c r ih =>
    by_cases h : p c
    · simpa [List.takeWhile_cons, List.dropWhile_cons, h] using ih
    · simp [List.takeWhile_cons, List.dropWhile_cons, h]

lemma takeWhile_all_iff (p : Char → Bool) (l : List Char) :
    l.takeWhile p = l ↔ l.all p = true := by
  constructor
  · intro h
    simpa [List.all_eq_true] using List.takeWhile_eq_self_iff.mp h
  · intro h
    exact List.takeWhile_eq_self_iff.mpr (by simpa [List.all_eq_true] using h)

lemma takeWhile_length_eq_iff (p : Char → Bool) (l : List Char) :
    (l.takeWhile p).length = l.length ↔ l.all p = true := by
  constructor
  · intro h
    rw [← takeWhile_all_iff]
    exact (List.takeWhile_prefix p).eq_of_length h
  · intro h
    rw [(takeWhile_all_iff p l).mpr h]

lemma length_takeWhile_add_dropWhile (p : Char → Bool) (l : List Char) :
    (l.takeWhile p).length + (l.dropWhile p).length = l.length := by
  conv_rhs => rw [← List.takeWhile_append_dropWhile (p := p) (l := l)]
  rw [List.length_append]

end KVF

namespace KVF

lemma signSplit_snd (r : List Char) : (signSplit r).2 = r.drop (signLenOf r) := by
  cases r with
  | nil => rfl
  | cons c t =>
    by_cases h1 : c = '-'
    · simp [signSplit, signLenOf, h1]
    · by_cases h2 : c = '+'
      · simp [signSplit, signLenOf, h1, h2]
      · simp [signSplit, signLenOf, h1, h2]

lemma signSplit_fst (r : List Char) :
    (signSplit r).1 = if isNegOf r then (-1 : Int) else 1 := by
  cases r with
  | nil => rfl
  | cons c t =>
    by_cases h1 : c = '-'
    · simp [signSplit, isNegOf, h1]
    · by_cases h2 : c = '+'
      · simp [signSplit, isNegOf, h1, h2]
      · simp [signSplit, isNegOf, h1, h2]

lemma signLenOf_le (r : List Char) : signLenOf r ≤ r.length := by
  cases r with
  | nil => simp [signLenOf]
  | cons c t =>
    simp only [signLenOf, List.length_cons]
    split <;> omega


lemma stoiWhole_isSome_iff (s : List Char) :
    (stoiWhole s).isSome = true ↔ stoiAcceptsEntire s := by
  have hws := length_takeWhile_add_dropWhile charIsSpace s
  have hk := signLenOf_le (s.dropWhile charIsSpace)
  have hdroplen := List.length_drop (signLenOf (s.dropWhile charIsSpace))
    (s.dropWhile charIsSpace)
  have htwle : (((s.dropWhile charIsSpace).drop
      (signLenOf (s.dropWhile charIsSpace))).takeWhile Char.isDigit).length ≤
      ((s.dropWhile charIsSpace).drop (signLenOf (s.dropWhile charIsSpace))).length :=
    (List.takeWhile_prefix Char.isDigit).length_le
  simp only [stoiWhole, stoiWithIndex, stoiAcceptsEntire, signSplit_snd, signSplit_fst]
  rw [drop_length_takeWhile]
  by_cases hdig : ((s.dropWhile charIsSpace).drop
      (signLenOf (s.dropWhile charIsSpace))).takeWhile Char.isDigit = []
  · rw [if_pos hdig]
    constructor
    · intro h
      simp at h
    · rintro ⟨hne, hall, -, -⟩
      exact absurd (by rw [← (takeWhile_all_iff Char.isDigit _).mpr hall]; exact hdig) hne
  · rw [if_neg hdig]
    by_cases hrange :
        ((if isNegOf (s.dropWhile charIsSpace) then
            -(natOfDigits (((s.dropWhile charIsSpace).drop
              (signLenOf (s.dropWhile charIsSpace))).takeWhile Char.isDigit) : Int)
          else
            (natOfDigits (((s.dropWhile charIsSpace).drop
              (signLenOf (s.dropWhile charIsSpace))).takeWhile Char.isDigit) : Int)) < intMin ∨
        intMax <
          (if isNegOf (s.dropWhile charIsSpace) then
            -(natOfDigits (((s.dropWhile charIsSpace).drop
              (signLenOf (s.dropWhile charIsSpace))).takeWhile Char.isDigit) : Int)
          else
            (natOfDigits (((s.dropWhile charIsSpace).drop
              (signLenOf (s.dropWhile charIsSpace))).takeWhile Char.isDigit) : Int)))
    · rw [if_pos hrange]
      constructor
      · intro h
        simp at h
      · rintro ⟨hne, hall, h1, h2⟩
        have heq := (takeWhile_all_iff Char.isDigit _).mpr hall
        rw [heq] at hrange
        cases hneg : isNegOf (s.dropWhile charIsSpace) <;>
          rw [hneg] at hrange h1 h2 <;>
          simp [intMin, intMax] at hrange h1 h2 <;> omega
    · rw [if_neg hrange]
      by_cases hlen : (s.takeWhile charIsSpace).length +
          signLenOf (s.dropWhile charIsSpace) +
          (((s.dropWhile charIsSpace).drop
            (signLenOf (s.dropWhile charIsSpace))).takeWhile Char.isDigit).length =
          s.length
      · have hfull : (((s.dropWhile charIsSpace).drop
            (signLenOf (s.dropWhile charIsSpace))).takeWhile Char.isDigit).length =
            ((s.dropWhile charIsSpace).drop
              (signLenOf (s.dropWhile charIsSpace))).length := by
          omega
        have hall := (takeWhile_length_eq_iff Char.isDigit _).mp hfull
        have heq := (takeWhile_all_iff Char.isDigit _).mpr hall
        push_neg at hrange
        obtain ⟨h1, h2⟩ := hrange
        constructor
        · intro _
          refine ⟨by rw [← heq]; exact hdig, hall, ?_, ?_⟩
          · rw [← heq]
            cases hneg : isNegOf (s.dropWhile charIsSpace) <;>
              rw [hneg] at h1 h2 <;> simp [intMin, intMax] at h1 h2 ⊢ <;> omega
          · rw [← heq]
            cases hneg : isNegOf (s.dropWhile charIsSpace) <;>
              rw [hneg] at h1 h2 <;> simp [intMin, intMax] at h1 h2 ⊢ <;> omega
        · intro _
          simp [hlen]
      · constructor
        · intro h
          exfalso
          revert h
          simp [hlen]
        · rintro ⟨hne, hall, -, -⟩
          exfalso
          apply hlen
          have heq := (takeWhile_all_iff Char.isDigit _).mpr hall
          have hDlen : (((s.dropWhile charIsSpace).drop
              (signLenOf (s.dropWhile charIsSpace))).takeWhile Char.isDigit).length =
              ((s.dropWhile charIsSpace).drop
                (signLenOf (s.dropWhile charIsSpace))).length := by
            rw [heq]
          omega

end KVF

/-- C8 amended: `tryGetInteger` succeeds exactly when the section and key
exist and the stored value — after the leading whitespace `std::stoi`
skips — is an optional sign followed by one or more decimal digits with no
trailing characters, and the value fits in a 32-bit `int`. -/
theorem claimC8_try_get_integer :
    ∀ (kvf : KVF.KeyValueFile) (section1 key : List Char),
      (KVF.tryGetInteger kvf section1 key).isSome = true ↔
      (∃ v, KVF.tryGetValue kvf section1 key = some v ∧ KVF.stoiAcceptsEntire v) := by
  intro kvf section1 key
  unfold KVF.tryGetInteger
  rcases h : KVF.tryGetValue kvf section1 key with _ | v
  · simp
  · simpa using KVF.stoiWhole_isSome_iff v

/-- The key/value store produced from the one-section file
`[S]` / `x = 3000000000`. -/
def kvfOverflowStore : KVF.KeyValueFile :=
  [(['S'], [(['x'], ['3', '0', '0', '0', '0', '0', '0', '0', '0', '0'])])]

/-- Counterexample for C8 as stated: the stored value `3000000000` is a
pure digit string (a decimal integer with no trailing characters) under an
existing section and key, yet `tryGetInteger` returns false because
`std::stoi` throws `out_of_range` for it on 32-bit `int`. -/
theorem claimC8_counterexample :
    KVF.kvfInit "[S]\nx = 3000000000".toList = some kvfOverflowStore ∧
    KVF.tryGetValue kvfOverflowStore ['S'] ['x'] =
      some ['3', '0', '0', '0', '0', '0', '0', '0', '0', '0'] ∧
    KVF.isDecimalIntegerString ['3', '0', '0', '0', '0', '0', '0', '0', '0', '0'] ∧
    KVF.tryGetInteger kvfOverflowStore ['S'] ['x'] = none := by
  refine ⟨by rfl, by rfl, ?_, by rfl⟩
  unfold KVF.isDecimalIntegerString
  decide

namespace KVF

/-- The (trimmed) section name a line declares, if it is a section line. -/
def sectionNameOfLine (line : List Char) : Option (List Char) :=
  match parseLine line with
  | .sec n => some n
  | _ => none

/-- How many lines of the file declare the section name `n`. -/
def countSection (lines : List (List Char)) (n : List Char) : Nat :=
  (lines.filter (fun l => sectionNameOfLine l = some n)).length

lemma countSection_cons (l : List Char) (ls : List (List Char)) (n : List Char) :
    countSection (l :: ls) n =
      (if sectionNameOfLine l = some n then 1 else 0) + countSection ls n := by
  unfold countSection
  rw [List.filter_cons]
  split
  · rename_i h
    simp only [List.length_cons]
    rw [if_pos (by simpa using h)]
    omega
  · rename_i h
    rw [if_neg (by simpa using h)]
    omega

lemma insertIntoSections_any (ss : List (List Char × SectionMap)) (name k v n : List Char) :
    (insertIntoSections ss name k v).any (fun p => p.1 = n) =
      ss.any (fun p => p.1 = n) := by
  unfold insertIntoSections
  induction ss with
  | nil => rfl
  | cons p rest ih =>
    simp only [List.map_cons, List.any_cons, ih]
    split <;> rfl

lemma stepLine_mono (st st' : InitState) (line n : List Char)
    (h : stepLine st line = some st')
    (hn : st.sections.any (fun p => p.1 = n) = true) :
    st'.sections.any (fun p => p.1 = n) = true := by
  unfold stepLine at h
  split at h
  · cases h; exact hn
  · cases h
  · split at h
    · cases h
    · cases h
      simp only [List.any_append]
      rw [hn]
      rfl
  · split at h
    · cases h; exact hn
    · cases h
      rw [insertIntoSections_any]
      exact hn

lemma runInit_countSection (n : List Char) :
    ∀ (lines : List (List Char)) (st st' : InitState),
      runInit st lines = some st' →
      countSection lines n +
        (if st.sections.any (fun p => p.1 = n) = true then 1 else 0) ≤ 1 := by
  intro lines
  induction lines with
  | nil =>
    intro st st' _
    unfold countSection
    simp only [List.filter_nil, List.length_nil]
    split <;> omega
  | cons l ls ih =>
    intro st st' h
    unfold runInit at h
    split at h
    · cases h
    · rename_i st1 hs
      have ihh := ih st1 st' h
      rw [countSection_cons]
      unfold stepLine at hs
      split at hs
      · -- skipped line
        rename_i hpl
        cases hs
        have hname : sectionNameOfLine l = none := by
          unfold sectionNameOfLine
          rw [hpl]
        rw [hname] at *
        simp only [reduceCtorEq, if_false]
        omega
      · cases hs
      · -- section line
        rename_i name hpl
        have hname : sectionNameOfLine l = some name := by
          unfold sectionNameOfLine
          rw [hpl]
        rw [hname]
        split at hs
        · cases hs
        · rename_i hdup
          cases hs
          by_cases hnn : name = n
          · subst hnn
            have h1 : ((st.sections ++ [(name, [])]).any
                (fun p => p.1 = name)) = true := by
              simp
            rw [if_pos h1] at ihh
            rw [if_pos rfl, if_neg hdup]
            omega
          · have hneq : ¬ (some name = some n) := by
              simp [hnn]
            rw [if_neg hneq]
            have h1 : ((st.sections ++ [(name, [])]).any
                (fun p => p.1 = n)) = st.sections.any (fun p => p.1 = n) := by
              simp [hnn]
            rw [h1] at ihh
            omega
      · -- key-value pair line
        rename_i k v hpl
        have hname : sectionNameOfLine l = none := by
          unfold sectionNameOfLine
          rw [hpl]
        rw [hname]
        simp only [reduceCtorEq, if_false]
        split at hs
        · cases hs
          omega
        · cases hs
          rw [insertIntoSections_any] at ihh
          omega

end KVF

/-- C9: `KeyValueFile::init` rejects a file in which a section name
(trimmed inside the brackets) appears more than once — a successful parse
admits at most one declaring line per section name — whereas a key-value
pair before any section header does not fail the parse: the pair is
skipped, the state is unchanged, and parsing continues, as the concrete
file `a=b`/`[S]`/`c=d` shows. -/
theorem claimC9_duplicate_sections_and_early_pairs :
    (∀ (text : List Char) (kvf : KVF.KeyValueFile) (n : List Char),
      KVF.kvfInit text = some kvf →
      KVF.countSection (KVF.splitOnChar (Char.ofNat 10) text) n ≤ 1) ∧
    (∀ (st : KVF.InitState) (line k v : List Char),
      KVF.parseLine line = .pair k v → st.active = none →
      KVF.stepLine st line = some st) ∧
    KVF.kvfInit "a=b\n[S]\nc=d".toList = some [(['S'], [(['c'], ['d'])])] ∧
    KVF.kvfInit "[S]\nx=1\n[ S ]\ny=2".toList = none := by
  refine ⟨?_, ?_, by rfl, by rfl⟩
  · intro text kvf n h
    unfold KVF.kvfInit at h
    rcases hr : KVF.runInit ⟨[], none⟩ (KVF.splitOnChar (Char.ofNat 10) text) with _ | st'
    · rw [hr] at h
      cases h
    · have hc := KVF.runInit_countSection n (KVF.splitOnChar (Char.ofNat 10) text)
        ⟨[], none⟩ st' hr
      simpa using hc
  · intro st line k v hp ha
    unfold KVF.stepLine
    rw [hp, ha]

/-- Witness for C9: the concrete mixed file and a pair-before-section
step. -/
theorem claimC9_witness :
    KVF.countSection (KVF.splitOnChar (Char.ofNat 10) "a=b\n[S]\nc=d".toList) ['S'] ≤ 1 ∧
    KVF.stepLine ⟨[], none⟩ "x = 1".toList = some ⟨[], none⟩ :=
  ⟨claimC9_duplicate_sections_and_early_pairs.1 "a=b\n[S]\nc=d".toList
      [(['S'], [(['c'], ['d'])])] ['S']
      claimC9_duplicate_sections_and_early_pairs.2.2.1,
    claimC9_duplicate_sections_and_early_pairs.2.1 ⟨[], none⟩ "x = 1".toList
      ['x'] ['1'] (by rfl) rfl⟩

/-- Witness for C4 at the crafted 2-frame 4x4 file. -/
theorem claimC4_witness :
    (∃ cfa, CFA.cfaInit CFA.exampleBytes = .ok cfa ∧
      cfa.pixels.length = cfa.imageCount ∧
      ∀ f ∈ cfa.pixels, f.length = cfa.width * cfa.height) ∨
    (∃ e, CFA.cfaInit CFA.exampleBytes = .error e) :=
  claimC4_all_or_nothing CFA.exampleBytes

/-- Witness for C5's amended equivalence at the empty file. -/
theorem claimC5_witness :
    CFA.isError (CFA.cfaInit []) = true ↔ CFA.amendedFormatDefect [] :=
  claimC5_failure_conditions []

/-- Witness for C8's amended equivalence at the overflow store. -/
theorem claimC8_witness :
    (KVF.tryGetInteger kvfOverflowStore ['S'] ['x']).isSome = true ↔
    (∃ v, KVF.tryGetValue kvfOverflowStore ['S'] ['x'] = some v ∧
      KVF.stoiAcceptsEntire v) :=
  claimC8_try_get_integer kvfOverflowStore ['S'] ['x']

/-- Witness for C10 at a three-mask list that always matches. -/
theorem claimC10_witness :
    Panel.getProvinceMaskID
        [⟨fun _ => true, fun _ _ => true⟩, ⟨fun _ => true, fun _ _ => true⟩,
          ⟨fun _ => true, fun _ _ => true⟩] ⟨0, 0⟩ = Panel.NO_ID ∨
    (0 ≤ Panel.getProvinceMaskID
        [⟨fun _ => true, fun _ _ => true⟩, ⟨fun _ => true, fun _ _ => true⟩,
          ⟨fun _ => true, fun _ _ => true⟩] ⟨0, 0⟩ ∧
      Panel.getProvinceMaskID
        [⟨fun _ => true, fun _ _ => true⟩, ⟨fun _ => true, fun _ _ => true⟩,
          ⟨fun _ => true, fun _ _ => true⟩] ⟨0, 0⟩ <
        (([⟨fun _ => true, fun _ _ => true⟩, ⟨fun _ => true, fun _ _ => true⟩,
          ⟨fun _ => true, fun _ _ => true⟩] : List Panel.WorldMapMask).length : Int) ∧
      Panel.getProvinceMaskID
        [⟨fun _ => true, fun _ _ => true⟩, ⟨fun _ => true, fun _ _ => true⟩,
          ⟨fun _ => true, fun _ _ => true⟩] ⟨0, 0⟩ ≠ 8 ∧
      Panel.getProvinceMaskID
        [⟨fun _ => true, fun _ _ => true⟩, ⟨fun _ => true, fun _ _ => true⟩,
          ⟨fun _ => true, fun _ _ => true⟩] ⟨0, 0⟩ ≠ 9) :=
  claimC10_province_mask_id_range
    [⟨fun _ => true, fun _ _ => true⟩, ⟨fun _ => true, fun _ _ => true⟩,
      ⟨fun _ => true, fun _ _ => true⟩] ⟨0, 0⟩
